import Mathlib

/-!
Formal model of `src/check_tracking.py` from the `wikidata-transclusion`
repository.

Strings are modelled as `List Char`.  The wikitext parsing performed by
`mwparserfromhell` is abstracted away: a revision is represented directly by
the list of template invocations that `filter_templates()` returns, each
invocation carrying its raw name and its ordered `(name, value)` parameter
pairs (for an unnamed positional parameter, `mwparserfromhell` reports the
position `"1"`, `"2"`, ... as the parameter name and the raw text as its
value).  Everything downstream of that — name standardisation, the five
per-family classification predicates, the per-page bookkeeping of the scan
loop, the periodic progress statistics and the final TSV report — is
translated function by function from the source.
-/

namespace CheckTracking

/-- A template parameter: a (name, value) pair of strings, as produced by
the wikitext parser for one parameter of a template invocation. -/
structure Param where
  name : List Char
  value : List Char
  deriving DecidableEq

/-- A template invocation: its raw name and its ordered parameter list. -/
structure Template where
  name : List Char
  params : List Param
  deriving DecidableEq

/-- Python `str.strip()`: remove leading and trailing whitespace.  (Python
strips the full Unicode whitespace set; the names handled by this script only
ever carry the ASCII whitespace covered by `Char.isWhitespace`.) -/
def strip (s : List Char) : List Char :=
  ((s.dropWhile Char.isWhitespace).reverse.dropWhile Char.isWhitespace).reverse

/-- Python `str.lower()`, character by character.  (`Char.toLower` covers the
basic-latin letters, which is all the template names here use.) -/
def lower (s : List Char) : List Char :=
  s.map Char.toLower

/-- Python `str.replace(" ", "_")`: a single-character replacement is a map. -/
def replaceSpace (s : List Char) : List Char :=
  s.map fun c => if c = ' ' then '_' else c

/-- `standardize_template_names(t)`: `t.strip().lower().replace(" ", "_")`. -/
def standardize_template_names (t : List Char) : List Char :=
  replaceSpace (lower (strip t))

/-- `standardize_template_param_name(param)`: `param.name.strip().lower()`. -/
def standardize_template_param_name (param : Param) : List Char :=
  lower (strip param.name)

/-! ### Model of Python `float(str)` acceptance

`coord` calls `float(str(p.value))` and only cares whether the call raises
`ValueError`.  The grammar accepted by CPython's `float` is: optional
surrounding whitespace, optional sign, then either one of the keywords
`inf` / `infinity` / `nan` (case-insensitive) or a decimal literal
`digitpart [. [digitpart]] | . digitpart` with an optional exponent
`(e|E) [sign] digitpart`, where a `digitpart` is digits with single
underscores allowed strictly between digits.  (CPython additionally accepts
non-ASCII decimal digits and a slightly larger whitespace set; the values in
this dump analysis are ASCII.) -/

/-- Consume the continuation of a digit part: `(['_'] digit | digit)*`.
Returns the unconsumed remainder. -/
def digitTail : List Char → List Char
  | '_' :: c :: rest => if c.isDigit then digitTail rest else '_' :: c :: rest
  | c :: rest => if c.isDigit then digitTail rest else c :: rest
  | [] => []

/-- Consume a `digitpart` (at least one digit, single underscores allowed
between digits).  Returns the remainder, or `none` if no digit starts `s`. -/
def digitPart (s : List Char) : Option (List Char) :=
  match s with
  | c :: rest => if c.isDigit then some (digitTail rest) else none
  | [] => none

/-- Consume the mantissa of a decimal float literal:
`digitpart [. [digitpart]] | . digitpart`. -/
def numBody (s : List Char) : Option (List Char) :=
  match digitPart s with
  | some rest =>
    match rest with
    | '.' :: rest2 =>
      match digitPart rest2 with
      | some rest3 => some rest3
      | none => some rest2
    | _ => some rest
  | none =>
    match s with
    | '.' :: rest2 => digitPart rest2
    | _ => none

/-- Consume a mandatory exponent `(e|E) [sign] digitpart`. -/
def expTail (s : List Char) : Option (List Char) :=
  match s with
  | c :: rest =>
    if c = 'e' || c = 'E' then
      match rest with
      | c2 :: rest2 => if c2 = '+' || c2 = '-' then digitPart rest2 else digitPart rest
      | [] => none
    else none
  | [] => none

/-- Does `float(s)` succeed (rather than raise `ValueError`) in Python? -/
def pyFloatAccepts (s : List Char) : Bool :=
  let t := strip s
  let t2 := match t with
    | c :: rest => if c = '+' || c = '-' then rest else t
    | [] => t
  if lower t2 == "inf".toList || lower t2 == "infinity".toList
      || lower t2 == "nan".toList then
    true
  else
    match numBody t2 with
    | none => false
    | some rest =>
      match rest with
      | [] => true
      | _ =>
        match expTail rest with
        | some [] => true
        | _ => false

/-- Python's substring test `needle in hay`. -/
def isSubstringOf (needle : List Char) : List Char → Bool
  | [] => needle.isEmpty
  | c :: rest => needle.isPrefixOf (c :: rest) || isSubstringOf needle rest

/-! ### The five classification predicates -/

/-- `coord(template)`: if any parameter value parses as a float it is
tracking; a value that fails to parse (`ValueError`, recovered locally) falls
through to the name check `'latitude=' in p.name or 'dd=' in p.name`. -/
def coord (template : Template) : Bool :=
  template.params.any fun p =>
    if pyFloatAccepts p.value then
      true
    else
      isSubstringOf "latitude=".toList p.name || isSubstringOf "dd=".toList p.name

/-- `ac(template)`: tracking unless the parameter list is empty or is exactly
one parameter whose standardised name is `qid`. -/
def ac (template : Template) : Bool :=
  match template.params with
  | [] => false
  | p0 :: ps =>
    if (p0 :: ps).length > 1 || !(standardize_template_param_name p0 == "qid".toList) then
      true
    else
      false

/-- `tb(template)`: same shape as `ac` with override parameter `from`. -/
def tb (template : Template) : Bool :=
  match template.params with
  | [] => false
  | p0 :: ps =>
    if (p0 :: ps).length > 1 || !(standardize_template_param_name p0 == "from".toList) then
      true
    else
      false

/-- `bda(template)`: birth date templates are always tracking. -/
def bda (_template : Template) : Bool :=
  true

/-- `el(template)`: transclusion only when there is exactly one parameter and
its standardised name is `name`; an empty parameter list falls through to the
final `return False`. -/
def el (template : Template) : Bool :=
  match template.params with
  | [] => false
  | p0 :: ps =>
    if (p0 :: ps).length == 1 && standardize_template_param_name p0 == "name".toList then
      false
    else
      true

/-! ### The scan loop of `main` -/

/-- The five template families, in the insertion order of the
`main_templates` dictionary literal. -/
inductive Family
  | cd
  | ac
  | tb
  | bd
  | el
  deriving DecidableEq, Fintype

/-- Dictionary iteration order of `main_templates` / `template_names` /
`wikidata_usage` (Python dicts iterate in insertion order). -/
def familyOrder : List Family :=
  [Family.cd, Family.ac, Family.tb, Family.bd, Family.el]

/-- `main_templates[t]['func']`. -/
def familyFunc : Family → Template → Bool
  | Family.cd => coord
  | Family.ac => ac
  | Family.tb => tb
  | Family.bd => bda
  | Family.el => el

/-- One entry of `wikidata_usage`: `{'tracking': _, 'transclusion': _}`. -/
structure Counters where
  tracking : Nat
  transclusion : Nat
  deriving DecidableEq

/-- The template-name tables built at startup: `template_names[t]` is a set
of standardised names; we model the set as a list with membership via
`contains`. -/
def NameTables : Type :=
  Family → List (List Char)

/-- Point update of the `wikidata_usage` dictionary. -/
def updUsage (u : Family → Counters) (f : Family) (c : Counters) : Family → Counters :=
  fun g => if g = f then c else u g

/-- The per-revision accumulator: the shared `wikidata_usage` dictionary plus
the page-local flags `wbc` and `tracking_only`. -/
structure RevAcc where
  usage : Family → Counters
  wbc : Bool
  tracking_only : Bool

/-- The body of `if t_name in template_names[t_check]:` for one matched
family: bump `tracking` or `transclusion` and update the flags. -/
def processMatch (t : Template) (f : Family) (acc : RevAcc) : RevAcc :=
  if familyFunc f t then
    { acc with
      usage := updUsage acc.usage f ⟨(acc.usage f).tracking + 1, (acc.usage f).transclusion⟩
      wbc := true }
  else
    { usage := updUsage acc.usage f ⟨(acc.usage f).tracking, (acc.usage f).transclusion + 1⟩
      wbc := true
      tracking_only := false }

/-- The loop body `for t_check in template_names:` for one candidate family:
membership test of the standardised name, then classification. -/
def processFamilyCheck (tn : NameTables) (t : Template) (acc : RevAcc) (f : Family) : RevAcc :=
  if (tn f).contains (standardize_template_names t.name) then processMatch t f acc
  else acc

/-- Processing one template invocation `t`: standardise its name once, then
try every family in dictionary order. -/
def processTemplate (tn : NameTables) (t : Template) (acc : RevAcc) : RevAcc :=
  familyOrder.foldl (processFamilyCheck tn t) acc

/-- The running totals of `main`. -/
structure ScanState where
  wikidata_usage : Family → Counters
  evaluated : Nat
  prob_wbc : Nat
  actual_wbc : Nat

/-- A revision, abstracted to the template invocations its wikitext parses
into. -/
structure Revision where
  text : List Template

/-- A page record of the dump: namespace, redirect flag and revisions. -/
structure Page where
  ns : Int
  redirect : Bool
  revisions : List Revision

/-- The body of `for revision in page:` — reset `wbc` / `tracking_only`,
classify every template invocation, then update `prob_wbc` / `actual_wbc`. -/
def scanRevision (tn : NameTables) (st : ScanState) (r : Revision) : ScanState :=
  let acc := r.text.foldl (fun acc t => processTemplate tn t acc)
    ⟨st.wikidata_usage, false, true⟩
  { st with
    wikidata_usage := acc.usage
    prob_wbc := st.prob_wbc + (if acc.wbc then 1 else 0)
    actual_wbc := st.actual_wbc + (if acc.wbc && !acc.tracking_only then 1 else 0) }

/-- Processing one page of the dump: only namespace-0 non-redirect pages are
evaluated. -/
def scanPage (tn : NameTables) (st : ScanState) (page : Page) : ScanState :=
  if page.ns = 0 && !page.redirect then
    page.revisions.foldl (scanRevision tn) { st with evaluated := st.evaluated + 1 }
  else
    st

/-- Python's true division `a / b`, which raises `ZeroDivisionError` when
`b = 0`.  The quotient is modelled exactly, as a rational. -/
def pyTrueDiv (a b : Nat) : Option ℚ :=
  if b = 0 then none else some ((a : ℚ) / (b : ℚ))

/-- The two divisions in the progress / final summary statement:
`prob_wbc * 100 / evaluated` and `100 * actual_wbc / evaluated`.  `none`
models an uncaught `ZeroDivisionError`. -/
def summary_stats (evaluated prob_wbc actual_wbc : Nat) : Option (ℚ × ℚ) :=
  match pyTrueDiv (prob_wbc * 100) evaluated, pyTrueDiv (100 * actual_wbc) evaluated with
  | some x, some y => some (x, y)
  | _, _ => none

/-- The zero-initialised `wikidata_usage` plus `evaluated = prob_wbc =
actual_wbc = 0`. -/
def initState : ScanState :=
  ⟨fun _ => ⟨0, 0⟩, 0, 0, 0⟩

/-- The dump loop `for i, page in enumerate(dump, start=1):` followed by the
final summary print: at every 10000-page boundary and once at the end the
summary statistics are computed, and a `ZeroDivisionError` there aborts the
run (`none`). -/
def loopAux (tn : NameTables) : Nat → ScanState → List Page → Option ScanState
  | _, st, [] =>
    match summary_stats st.evaluated st.prob_wbc st.actual_wbc with
    | some _ => some st
    | none => none
  | i, st, page :: pages =>
    let st' := scanPage tn st page
    if i % 10000 = 0 then
      match summary_stats st'.evaluated st'.prob_wbc st'.actual_wbc with
      | some _ => loopAux tn (i + 1) st' pages
      | none => none
    else
      loopAux tn (i + 1) st' pages

/-- The whole scan phase of `main`. -/
def mainLoop (tn : NameTables) (pages : List Page) : Option ScanState :=
  loopAux tn 1 initState pages

/-! ### Namespace stripping in `build_template_list` -/

/-- Python `s.find(c)`: index of the first occurrence, `-1` if absent. -/
def pyFind (c : Char) (s : List Char) : Int :=
  match s.findIdx? (fun a => a = c) with
  | some i => (i : Int)
  | none => -1

/-- `t['title'][name_start:]` with `name_start = t['title'].find(':') + 1`:
drop everything up to and including the first colon. -/
def strip_namespace (title : List Char) : List Char :=
  title.drop (pyFind ':' title + 1).toNat

/-- The name added to the template set for one returned title. -/
def template_list_entry (title : List Char) : List Char :=
  standardize_template_names (strip_namespace title)

/-! ### The final TSV report -/

/-- Decimal digits of `n`, most significant first (what Python's `format`
interpolates for a nonnegative int). -/
def natReprAux : Nat → List Char → List Char
  | n, acc =>
    if h : n < 10 then
      Char.ofNat (48 + n) :: acc
    else
      natReprAux (n / 10) (Char.ofNat (48 + n % 10) :: acc)
  decreasing_by exact Nat.div_lt_self (by omega) (by omega)

/-- Decimal representation of a natural number. -/
def natRepr (n : Nat) : List Char :=
  natReprAux n []

/-- Decimal representation of an integer, with a leading `-` when negative. -/
def intRepr (i : Int) : List Char :=
  if i < 0 then '-' :: natRepr i.natAbs else natRepr i.toNat

/-- The row label of one family in the report. -/
def familyTag : Family → List Char
  | Family.cd => "cd".toList
  | Family.ac => "ac".toList
  | Family.tb => "tb".toList
  | Family.bd => "bd".toList
  | Family.el => "el".toList

/-- One `fout.write('{0}\t{1}\t{2}\n'.format(w, ...transclusion, ...tracking))`
call. -/
def famRow (u : Family → Counters) (w : Family) : List Char :=
  familyTag w ++ '\t' :: natRepr (u w).transclusion ++ '\t' :: natRepr (u w).tracking ++ ['\n']

/-- The full content written to the output TSV, as the concatenation of the
successive `fout.write` calls.  `prob_wbc - actual_wbc` is Python integer
subtraction, so it is taken in `ℤ`. -/
def reportFile (u : Family → Counters) (evaluated prob_wbc actual_wbc : Nat) : List Char :=
  "type\ttransclusion\ttracking".toList ++ '\n' ::
  ("total:".toList ++ natRepr evaluated ++ '\t' :: '\t' :: '\n' ::
  ("wbc_estimate".toList ++ '\t' :: natRepr actual_wbc ++
      '\t' :: intRepr ((prob_wbc : Int) - (actual_wbc : Int)) ++ '\n' ::
  familyOrder.foldl (fun out w => out ++ famRow u w) []))

/-- Split a character list on a separator character; a specification-side
observer used to state the row/column structure of the report. -/
def splitOnChar (sep : Char) : List Char → List (List Char)
  | [] => [[]]
  | c :: rest =>
    match splitOnChar sep rest with
    | [] => [[c]]
    | s :: ss => if c = sep then [] :: s :: ss else (c :: s) :: ss

/-! ### Observers used in the statements about the scan loop -/

/-- Does the invocation's standardised name belong to some family's name
table? -/
def matchesAny (tn : NameTables) (t : Template) : Bool :=
  familyOrder.any fun f => (tn f).contains (standardize_template_names t.name)

/-- Is the invocation matched by some family whose predicate classifies it
as transclusion? -/
def matchesTransclusion (tn : NameTables) (t : Template) : Bool :=
  familyOrder.any fun f =>
    (tn f).contains (standardize_template_names t.name) && !familyFunc f t

/-- Pointwise order on usage dictionaries: every counter of every family is
at most the corresponding counter. -/
def usageLe (u v : Family → Counters) : Prop :=
  ∀ f, (u f).tracking ≤ (v f).tracking ∧ (u f).transclusion ≤ (v f).transclusion

/-- Projection of a scan state to its numeric content (the usage dictionary
flattened in family order as (tracking, transclusion) pairs). -/
def observe (st : ScanState) :
    Nat × Nat × Nat × (Nat × Nat) × (Nat × Nat) × (Nat × Nat) × (Nat × Nat) × (Nat × Nat) :=
  (st.evaluated, st.prob_wbc, st.actual_wbc,
   ((st.wikidata_usage Family.cd).tracking, (st.wikidata_usage Family.cd).transclusion),
   ((st.wikidata_usage Family.ac).tracking, (st.wikidata_usage Family.ac).transclusion),
   ((st.wikidata_usage Family.tb).tracking, (st.wikidata_usage Family.tb).transclusion),
   ((st.wikidata_usage Family.bd).tracking, (st.wikidata_usage Family.bd).transclusion),
   ((st.wikidata_usage Family.el).tracking, (st.wikidata_usage Family.el).transclusion))

/-! ### Concrete inputs used in counterexamples and witnesses -/

/-- Name tables holding `coord` for family `cd` and `authority_control` for
family `ac` (what `build_template_list` returns for the seed titles
`Template:Coord` and `Template:Authority control`, redirects aside). -/
def tnDemo : NameTables
  | Family.cd => ["coord".toList]
  | Family.ac => ["authority_control".toList]
  | _ => []

/-- `{{Coord|51.5|-0.1}}`. -/
def tCoord : Template :=
  ⟨"Coord".toList, [⟨"1".toList, "51.5".toList⟩, ⟨"2".toList, "-0.1".toList⟩]⟩

/-- `{{Authority control|VIAF=1|LCCN=2}}`. -/
def tACtwo : Template :=
  ⟨"Authority control".toList, [⟨"VIAF".toList, "1".toList⟩, ⟨"LCCN".toList, "2".toList⟩]⟩

/-- `{{Authority control|QID=Q1}}`. -/
def tACqid : Template :=
  ⟨"Authority control".toList, [⟨"QID".toList, "Q1".toList⟩]⟩

/-- Page A of the synthetic dump: namespace 0, not a redirect, one revision
containing `{{Coord|51.5|-0.1}}`. -/
def pageA : Page :=
  ⟨0, false, [⟨[tCoord]⟩]⟩

/-- Page B: one revision containing `{{Authority control|VIAF=1|LCCN=2}}`. -/
def pageB : Page :=
  ⟨0, false, [⟨[tACtwo]⟩]⟩

/-- Page C: one revision containing `{{Authority control|QID=Q1}}`. -/
def pageC : Page :=
  ⟨0, false, [⟨[tACqid]⟩]⟩

/-- A page carrying both a tracking-classified `{{Coord|51.5|-0.1}}` and a
transclusion-classified `{{Authority control|QID=Q1}}` in its one revision. -/
def pageMixed : Page :=
  ⟨0, false, [⟨[tCoord, tACqid]⟩]⟩

/-- A redirect page: skipped by the scan loop. -/
def pageRedirect : Page :=
  ⟨0, true, [⟨[]⟩]⟩

/-! ## Character-level helper lemmas -/

theorem char_ne_of_toNat_ne {a b : Char} (h : a.toNat ≠ b.toNat) : a ≠ b :=
  fun e => h (congrArg Char.toNat e)

theorem char_toNat_ofNat {n : Nat} (h : n < 55296) : (Char.ofNat n).toNat = n := by
  rw [Char.ofNat, dif_pos (Or.inl h)]
  rfl

theorem toLower_toNat_of_range {c : Char} (h1 : 65 ≤ c.toNat) (h2 : c.toNat ≤ 90) :
    c.toLower.toNat = c.toNat + 32 := by
  rw [Char.toLower, if_pos ⟨h1, h2⟩]
  exact char_toNat_ofNat (by omega)

theorem toLower_eq_of_not_range {c : Char} (h : ¬(65 ≤ c.toNat ∧ c.toNat ≤ 90)) :
    c.toLower = c := by
  rw [Char.toLower, if_neg h]

theorem toLower_toLower (c : Char) : c.toLower.toLower = c.toLower := by
  by_cases h : 65 ≤ c.toNat ∧ c.toNat ≤ 90
  · have h32 := toLower_toNat_of_range h.1 h.2
    exact toLower_eq_of_not_range (by omega)
  · rw [toLower_eq_of_not_range h, toLower_eq_of_not_range h]

theorem isWhitespace_toNat {c : Char} (h : c.isWhitespace = true) :
    c.toNat = 32 ∨ c.toNat = 9 ∨ c.toNat = 13 ∨ c.toNat = 10 := by
  simp only [Char.isWhitespace, Bool.or_eq_true, decide_eq_true_eq] at h
  rcases h with ((h | h) | h) | h <;> subst h <;> simp

theorem isWhitespace_toLower {c : Char} (h : c.toLower.isWhitespace = true) :
    c.isWhitespace = true := by
  by_cases hr : 65 ≤ c.toNat ∧ c.toNat ≤ 90
  · have h32 := toLower_toNat_of_range hr.1 hr.2
    rcases isWhitespace_toNat h with h' | h' | h' | h' <;> omega
  · rwa [toLower_eq_of_not_range hr] at h

/-! ## Lemmas about `strip` -/

theorem strip_eq (s : List Char) :
    strip s = List.rdropWhile Char.isWhitespace (s.dropWhile Char.isWhitespace) := rfl

theorem dropWhile_strip (s : List Char) :
    (strip s).dropWhile Char.isWhitespace = strip s := by
  rw [strip_eq, List.dropWhile_eq_self_iff]
  intro hl
  have hp : List.rdropWhile Char.isWhitespace (s.dropWhile Char.isWhitespace) <+:
      s.dropWhile Char.isWhitespace := List.rdropWhile_prefix _ _
  have hlen : 0 < (s.dropWhile Char.isWhitespace).length :=
    lt_of_lt_of_le hl (List.IsPrefix.length_le hp)
  have hg := hp.getElem (n := 0) hl
  simp only [List.get_eq_getElem]
  rw [hg]
  have := List.dropWhile_get_zero_not (p := Char.isWhitespace) s hlen
  simpa using this

theorem rdropWhile_strip (s : List Char) :
    List.rdropWhile Char.isWhitespace (strip s) = strip s := by
  rw [strip_eq, List.rdropWhile_idempotent]

theorem strip_strip (s : List Char) : strip (strip s) = strip s := by
  rw [strip_eq (strip s), dropWhile_strip, rdropWhile_strip]

/-- Mapping a whitespace-reflecting function over an already stripped string
leaves nothing for a second `strip` to remove. -/
theorem strip_map_of_ws (h : Char → Char)
    (hws : ∀ c, (h c).isWhitespace = true → c.isWhitespace = true) (s : List Char) :
    strip ((strip s).map h) = (strip s).map h := by
  rw [strip_eq ((strip s).map h)]
  have h1 : ((strip s).map h).dropWhile Char.isWhitespace = (strip s).map h := by
    rw [List.dropWhile_eq_self_iff]
    intro hl
    simp only [List.get_eq_getElem, List.getElem_map]
    intro hc
    have hl' : 0 < (strip s).length := by simpa using hl
    have := List.dropWhile_eq_self_iff.mp (dropWhile_strip s) hl'
    exact this (by simpa using hws _ hc)
  rw [h1, List.rdropWhile_eq_self_iff]
  intro hl hc
  have hne : strip s ≠ [] := by
    intro e
    rw [e] at hl
    exact hl rfl
  rw [List.getLast_map] at hc
  have := List.rdropWhile_eq_self_iff.mp (rdropWhile_strip s) hne
  exact this (hws _ hc)

/-! ## Claim C7: idempotence of name standardisation -/

theorem standardize_eq_map (s : List Char) :
    standardize_template_names s =
      (strip s).map (fun c => if c.toLower = ' ' then '_' else c.toLower) := by
  simp [standardize_template_names, replaceSpace, lower, List.map_map, Function.comp]

theorem rho_ws (c : Char)
    (h : (if c.toLower = ' ' then '_' else c.toLower).isWhitespace = true) :
    c.isWhitespace = true := by
  by_cases he : c.toLower = ' '
  · rw [if_pos he] at h
    simp [Char.isWhitespace] at h
  · rw [if_neg he] at h
    exact isWhitespace_toLower h

theorem rho_rho (c : Char) :
    (fun c => if c.toLower = ' ' then '_' else c.toLower)
      ((fun c => if c.toLower = ' ' then '_' else c.toLower) c)
    = (fun c => if c.toLower = ' ' then '_' else c.toLower) c := by
  simp only []
  by_cases he : c.toLower = ' '
  · rw [if_pos he]
    decide
  · rw [if_neg he, toLower_toLower, if_neg he]

theorem std_idem (s : List Char) :
    standardize_template_names (standardize_template_names s) = standardize_template_names s := by
  rw [standardize_eq_map s, standardize_eq_map]
  rw [strip_map_of_ws _ rho_ws s, List.map_map]
  exact List.map_congr_left (fun c _ => rho_rho c)

/-- C7: `standardize_template_names` (strip, lowercase, spaces to
underscores) is idempotent, and sends `"  Coord  "` to `"coord"`. -/
theorem claim7_standardize_idempotent :
    (∀ s : List Char,
      standardize_template_names (standardize_template_names s) =
        standardize_template_names s) ∧
    standardize_template_names "  Coord  ".toList = "coord".toList :=
  ⟨std_idem, by decide⟩

/-! ## Claims C2 and C3: the `ac`, `tb` and `el` predicates

The code returns `False` for an empty parameter list in all three predicates
(`if template.params:` is skipped when the list is empty and control falls
through to `return False`), so the zero-parameter case is transclusion, not
tracking-only. -/

theorem ac_false_iff (t : Template) :
    ac t = false ↔ t.params = [] ∨
      ∃ p, t.params = [p] ∧ standardize_template_param_name p = "qid".toList := by
  obtain ⟨nm, ps⟩ := t
  match ps with
  | [] => simp [ac]
  | [p] =>
    by_cases h : standardize_template_param_name p = "qid".toList
    · simp [ac, h]
    · simp [ac, h]
  | p :: q :: rest => simp [ac]

theorem tb_false_iff (t : Template) :
    tb t = false ↔ t.params = [] ∨
      ∃ p, t.params = [p] ∧ standardize_template_param_name p = "from".toList := by
  obtain ⟨nm, ps⟩ := t
  match ps with
  | [] => simp [tb]
  | [p] =>
    by_cases h : standardize_template_param_name p = "from".toList
    · simp [tb, h]
    · simp [tb, h]
  | p :: q :: rest => simp [tb]

theorem el_false_iff (t : Template) :
    el t = false ↔ t.params = [] ∨
      ∃ p, t.params = [p] ∧ standardize_template_param_name p = "name".toList := by
  obtain ⟨nm, ps⟩ := t
  match ps with
  | [] => simp [el]
  | [p] =>
    by_cases h : standardize_template_param_name p = "name".toList
    · simp [el, h]
    · simp [el, h]
  | p :: q :: rest => simp [el]

/-- C2 counterexample: on a zero-parameter invocation both `ac` and `tb`
return `false` (transclusion), where the claim says they return `true`. -/
theorem claim2_counterexample :
    ac ⟨"Authority control".toList, []⟩ = false ∧ tb ⟨"Taxonbar".toList, []⟩ = false := by
  decide

/-- C2 as amended: `ac` returns `false` iff the invocation has zero
parameters or exactly one parameter whose normalized name is `qid`, and
`tb` likewise with `from`. -/
theorem claim2_ac_tb_characterization (t : Template) :
    (ac t = false ↔ t.params = [] ∨
      ∃ p, t.params = [p] ∧ standardize_template_param_name p = "qid".toList) ∧
    (tb t = false ↔ t.params = [] ∨
      ∃ p, t.params = [p] ∧ standardize_template_param_name p = "from".toList) :=
  ⟨ac_false_iff t, tb_false_iff t⟩

/-- C3 counterexample: on a zero-parameter invocation `el` returns `false`
(transclusion), where the claim says it returns `true`. -/
theorem claim3_counterexample : el ⟨"Official website".toList, []⟩ = false := by
  decide

/-- C3 as amended: `el` returns `false` iff the invocation has zero
parameters or exactly one parameter whose normalized name is `name`; it
returns `true` for two parameters named `name` and `url`. -/
theorem claim3_el_characterization (t : Template) :
    (el t = false ↔ t.params = [] ∨
      ∃ p, t.params = [p] ∧ standardize_template_param_name p = "name".toList) ∧
    el ⟨"Official website".toList,
      [⟨"name".toList, "v".toList⟩, ⟨"url".toList, "u".toList⟩]⟩ = true :=
  ⟨el_false_iff t, by decide⟩

/-! ## Claim C4: the `coord` predicate -/

theorem coord_true_iff (t : Template) :
    coord t = true ↔ ∃ p ∈ t.params,
      pyFloatAccepts p.value = true ∨
      (pyFloatAccepts p.value = false ∧
       (isSubstringOf "latitude=".toList p.name = true ∨
        isSubstringOf "dd=".toList p.name = true)) := by
  rw [coord, List.any_eq_true]
  constructor
  · rintro ⟨p, hp, hf⟩
    refine ⟨p, hp, ?_⟩
    by_cases h : pyFloatAccepts p.value = true
    · exact Or.inl h
    · rw [if_neg h] at hf
      rcases Bool.or_eq_true _ _ |>.mp hf with h1 | h1
      · exact Or.inr ⟨Bool.eq_false_iff.mpr h, Or.inl h1⟩
      · exact Or.inr ⟨Bool.eq_false_iff.mpr h, Or.inr h1⟩
  · rintro ⟨p, hp, hf | ⟨hn, hs⟩⟩
    · exact ⟨p, hp, by rw [if_pos hf]⟩
    · refine ⟨p, hp, ?_⟩
      rw [if_neg (by simp [hn])]
      rcases hs with hs | hs
      · exact Bool.or_eq_true _ _ |>.mpr (Or.inl hs)
      · exact Bool.or_eq_true _ _ |>.mpr (Or.inr hs)

/-- C4: `coord` returns `true` iff some parameter's value parses as a float
or, when the value fails to parse (locally recovered, never raised), the
parameter's name contains `latitude=` or `dd=` as a substring; concrete
cases: value `51.5` is tracking, name `latitude=` with a non-numeric value
is tracking, a sole `caption` = `a castle` parameter is not. -/
theorem claim4_coord_characterization :
    (∀ t : Template, coord t = true ↔ ∃ p ∈ t.params,
      pyFloatAccepts p.value = true ∨
      (pyFloatAccepts p.value = false ∧
       (isSubstringOf "latitude=".toList p.name = true ∨
        isSubstringOf "dd=".toList p.name = true))) ∧
    coord ⟨"Coord".toList, [⟨"1".toList, "51.5".toList⟩]⟩ = true ∧
    coord ⟨"Coord".toList, [⟨"latitude=".toList, "castle".toList⟩]⟩ = true ∧
    coord ⟨"Coord".toList, [⟨"caption".toList, "a castle".toList⟩]⟩ = false :=
  ⟨coord_true_iff, by decide, by decide, by decide⟩

/-! ## Claim C10: namespace stripping in `build_template_list` -/

theorem findIdx?_colon_append (pre rest : List Char) (h : ':' ∉ pre) :
    List.findIdx? (fun a => a = ':') (pre ++ ':' :: rest) = some pre.length := by
  induction pre with
  | nil => simp
  | cons c pre ih =>
    have hc : c ≠ ':' := fun e => h (e ▸ List.mem_cons_self c pre)
    have h' : ':' ∉ pre := fun m => h (List.mem_cons_of_mem _ m)
    simp only [List.cons_append, List.findIdx?_cons, List.findIdx?_succ]
    rw [if_neg (by simp [hc]), ih h']
    rfl

/-- C10: a colon-free title is passed whole to normalization (`find` returns
`-1` and the slice starts at 0), and for a title with a colon only the text
up to the first colon is dropped — interior colons survive. -/
theorem claim10_namespace_stripping :
    (∀ title : List Char, ':' ∉ title →
      template_list_entry title = standardize_template_names title) ∧
    (∀ pre rest : List Char, ':' ∉ pre → strip_namespace (pre ++ ':' :: rest) = rest) := by
  constructor
  · intro title h
    have hn : List.findIdx? (fun a => a = ':') title = none :=
      List.findIdx?_eq_none_iff.mpr (fun x hx => decide_eq_false (fun e => h (e ▸ hx)))
    unfold template_list_entry strip_namespace pyFind
    rw [hn]
    rfl
  · intro pre rest h
    unfold strip_namespace pyFind
    rw [findIdx?_colon_append pre rest h]
    have hn : ((pre.length : Int) + 1).toNat = pre.length + 1 := by omega
    simp only [hn]
    have he : pre ++ ':' :: rest = (pre ++ [':']) ++ rest := by simp
    rw [he, List.drop_left' (by simp)]

/-- Witness for C10 at `"coord"` (no colon) and `"Template:User:X"`. -/
theorem claim10_witness :
    (':' ∉ "coord".toList ∧
      template_list_entry "coord".toList = standardize_template_names "coord".toList) ∧
    (':' ∉ "Template".toList ∧
      strip_namespace ("Template".toList ++ ':' :: "User:X".toList) = "User:X".toList) :=
  ⟨⟨by decide, claim10_namespace_stripping.1 _ (by decide)⟩,
   ⟨by decide, claim10_namespace_stripping.2 _ _ (by decide)⟩⟩

theorem processMatch_wbc (t : Template) (f : Family) (acc : RevAcc) :
    (processMatch t f acc).wbc = true := by
  unfold processMatch
  by_cases h : familyFunc f t <;> simp [h]

theorem processMatch_tracking_only (t : Template) (f : Family) (acc : RevAcc) :
    (processMatch t f acc).tracking_only = (acc.tracking_only && familyFunc f t) := by
  unfold processMatch
  by_cases h : familyFunc f t <;> simp [h]

theorem processMatch_usage_self (t : Template) (f : Family) (acc : RevAcc) :
    (processMatch t f acc).usage f =
      if familyFunc f t then ⟨(acc.usage f).tracking + 1, (acc.usage f).transclusion⟩
      else ⟨(acc.usage f).tracking, (acc.usage f).transclusion + 1⟩ := by
  unfold processMatch
  by_cases h : familyFunc f t <;> simp [h, updUsage]

theorem processMatch_usage_other (t : Template) (f g : Family) (acc : RevAcc) (hne : g ≠ f) :
    (processMatch t f acc).usage g = acc.usage g := by
  unfold processMatch
  by_cases h : familyFunc f t <;> simp [h, updUsage, hne]

theorem processFamilyCheck_wbc (tn : NameTables) (t : Template) (acc : RevAcc) (f : Family) :
    (processFamilyCheck tn t acc f).wbc =
      (acc.wbc || (tn f).contains (standardize_template_names t.name)) := by
  unfold processFamilyCheck
  cases h : (tn f).contains (standardize_template_names t.name) with
  | false => simp
  | true => simp [processMatch_wbc]

theorem processFamilyCheck_tracking_only (tn : NameTables) (t : Template) (acc : RevAcc)
    (f : Family) :
    (processFamilyCheck tn t acc f).tracking_only =
      (acc.tracking_only &&
        !((tn f).contains (standardize_template_names t.name) && !familyFunc f t)) := by
  unfold processFamilyCheck
  cases h : (tn f).contains (standardize_template_names t.name) with
  | false => simp
  | true =>
    simp only [if_pos rfl, processMatch_tracking_only, Bool.true_and]
    by_cases hf : familyFunc f t <;> simp [processMatch_tracking_only, hf]

theorem foldFam_wbc (tn : NameTables) (t : Template) (fs : List Family) (acc : RevAcc) :
    (fs.foldl (processFamilyCheck tn t) acc).wbc =
      (acc.wbc || fs.any (fun f => (tn f).contains (standardize_template_names t.name))) := by
  induction fs generalizing acc with
  | nil => simp
  | cons f fs ih =>
    rw [List.foldl_cons, ih, processFamilyCheck_wbc, List.any_cons, Bool.or_assoc]

theorem foldFam_tracking_only (tn : NameTables) (t : Template) (fs : List Family) (acc : RevAcc) :
    (fs.foldl (processFamilyCheck tn t) acc).tracking_only =
      (acc.tracking_only &&
        !(fs.any (fun f =>
            (tn f).contains (standardize_template_names t.name) && !familyFunc f t))) := by
  induction fs generalizing acc with
  | nil => simp
  | cons f fs ih =>
    rw [List.foldl_cons, ih, processFamilyCheck_tracking_only, List.any_cons]
    rw [Bool.not_or, Bool.and_assoc]

theorem processTemplate_wbc (tn : NameTables) (t : Template) (acc : RevAcc) :
    (processTemplate tn t acc).wbc = (acc.wbc || matchesAny tn t) :=
  foldFam_wbc tn t familyOrder acc

theorem processTemplate_tracking_only (tn : NameTables) (t : Template) (acc : RevAcc) :
    (processTemplate tn t acc).tracking_only =
      (acc.tracking_only && !matchesTransclusion tn t) :=
  foldFam_tracking_only tn t familyOrder acc
theorem processFamilyCheck_usage_other (tn : NameTables) (t : Template) (acc : RevAcc)
    (f g : Family) (hne : g ≠ f) :
    (processFamilyCheck tn t acc f).usage g = acc.usage g := by
  unfold processFamilyCheck
  cases h : (tn f).contains (standardize_template_names t.name) with
  | false => simp
  | true => simp [processMatch_usage_other t f g acc hne]

theorem foldFam_usage_not_mem (tn : NameTables) (t : Template) (fs : List Family)
    (f : Family) (acc : RevAcc) (hf : f ∉ fs) :
    (fs.foldl (processFamilyCheck tn t) acc).usage f = acc.usage f := by
  induction fs generalizing acc with
  | nil => rfl
  | cons g fs ih =>
    have hne : f ≠ g := fun e => hf (e ▸ List.mem_cons_self g fs)
    have hf' : f ∉ fs := fun m => hf (List.mem_cons_of_mem _ m)
    rw [List.foldl_cons, ih _ hf', processFamilyCheck_usage_other tn t acc g f hne]

theorem foldFam_usage (tn : NameTables) (t : Template) (fs : List Family)
    (hnd : fs.Nodup) (f : Family) (acc : RevAcc) :
    (fs.foldl (processFamilyCheck tn t) acc).usage f =
      if fs.contains f && (tn f).contains (standardize_template_names t.name) then
        (if familyFunc f t then ⟨(acc.usage f).tracking + 1, (acc.usage f).transclusion⟩
         else ⟨(acc.usage f).tracking, (acc.usage f).transclusion + 1⟩)
      else acc.usage f := by
  induction fs generalizing acc with
  | nil => simp
  | cons g fs ih =>
    rw [List.foldl_cons]
    rcases List.nodup_cons.mp hnd with ⟨hg, hnd'⟩
    by_cases hfg : f = g
    · subst hfg
      rw [foldFam_usage_not_mem tn t fs f _ hg]
      unfold processFamilyCheck
      cases h : (tn f).contains (standardize_template_names t.name) with
      | false => simp
      | true => simp [processMatch_usage_self]
    · rw [ih hnd' _, processFamilyCheck_usage_other tn t acc g f hfg]
      have hb : (f == g) = false := beq_eq_false_iff_ne.mpr hfg
      rw [List.contains_cons, hb, Bool.false_or]
theorem usageLe_refl (u : Family → Counters) : usageLe u u :=
  fun _ => ⟨le_refl _, le_refl _⟩

theorem usageLe_trans {u v w : Family → Counters} (h1 : usageLe u v) (h2 : usageLe v w) :
    usageLe u w :=
  fun f => ⟨le_trans (h1 f).1 (h2 f).1, le_trans (h1 f).2 (h2 f).2⟩

theorem processMatch_le (t : Template) (f : Family) (acc : RevAcc) :
    usageLe acc.usage (processMatch t f acc).usage := by
  intro g
  by_cases hg : g = f
  · subst hg
    rw [processMatch_usage_self]
    by_cases hf : familyFunc g t <;> simp [hf]
  · rw [processMatch_usage_other t f g acc hg]
    exact ⟨le_refl _, le_refl _⟩

theorem processFamilyCheck_le (tn : NameTables) (t : Template) (acc : RevAcc) (f : Family) :
    usageLe acc.usage (processFamilyCheck tn t acc f).usage := by
  unfold processFamilyCheck
  cases h : (tn f).contains (standardize_template_names t.name) with
  | false => simp [usageLe_refl]
  | true => simp [processMatch_le]

theorem foldFam_le (tn : NameTables) (t : Template) (fs : List Family) (acc : RevAcc) :
    usageLe acc.usage ((fs.foldl (processFamilyCheck tn t) acc).usage) := by
  induction fs generalizing acc with
  | nil => exact usageLe_refl _
  | cons f fs ih =>
    rw [List.foldl_cons]
    exact usageLe_trans (processFamilyCheck_le tn t acc f) (ih _)

theorem processTemplate_le (tn : NameTables) (t : Template) (acc : RevAcc) :
    usageLe acc.usage (processTemplate tn t acc).usage :=
  foldFam_le tn t familyOrder acc

theorem foldTemplates_le (tn : NameTables) (ts : List Template) (acc : RevAcc) :
    usageLe acc.usage ((ts.foldl (fun acc t => processTemplate tn t acc) acc).usage) := by
  induction ts generalizing acc with
  | nil => exact usageLe_refl _
  | cons t ts ih =>
    rw [List.foldl_cons]
    exact usageLe_trans (processTemplate_le tn t acc) (ih _)

theorem scanRevision_le (tn : NameTables) (st : ScanState) (r : Revision) :
    usageLe st.wikidata_usage (scanRevision tn st r).wikidata_usage :=
  foldTemplates_le tn r.text ⟨st.wikidata_usage, false, true⟩

theorem foldRevisions_le (tn : NameTables) (rs : List Revision) (st : ScanState) :
    usageLe st.wikidata_usage ((rs.foldl (scanRevision tn) st).wikidata_usage) := by
  induction rs generalizing st with
  | nil => exact usageLe_refl _
  | cons r rs ih =>
    rw [List.foldl_cons]
    exact usageLe_trans (scanRevision_le tn st r) (ih _)

theorem scanPage_le (tn : NameTables) (st : ScanState) (pg : Page) :
    usageLe st.wikidata_usage (scanPage tn st pg).wikidata_usage := by
  unfold scanPage
  by_cases h : pg.ns = 0 && !pg.redirect
  · rw [if_pos h]
    exact foldRevisions_le tn pg.revisions { st with evaluated := st.evaluated + 1 }
  · rw [if_neg h]
    exact usageLe_refl _

theorem loopAux_le (tn : NameTables) (pages : List Page) :
    ∀ (i : Nat) (st st' : ScanState),
      loopAux tn i st pages = some st' → usageLe st.wikidata_usage st'.wikidata_usage := by
  induction pages with
  | nil =>
    intro i st st' h
    unfold loopAux at h
    cases hs : summary_stats st.evaluated st.prob_wbc st.actual_wbc with
    | none => rw [hs] at h; cases h
    | some q => rw [hs] at h; cases h; exact usageLe_refl _
  | cons pg pages ih =>
    intro i st st' h
    unfold loopAux at h
    by_cases hi : i % 10000 = 0
    · rw [if_pos hi] at h
      cases hs : summary_stats (scanPage tn st pg).evaluated (scanPage tn st pg).prob_wbc
          (scanPage tn st pg).actual_wbc with
      | none => rw [hs] at h; cases h
      | some q =>
        rw [hs] at h
        exact usageLe_trans (scanPage_le tn st pg) (ih _ _ _ h)
    · rw [if_neg hi] at h
      exact usageLe_trans (scanPage_le tn st pg) (ih _ _ _ h)
theorem foldTemplates_wbc (tn : NameTables) (ts : List Template) (acc : RevAcc) :
    (ts.foldl (fun acc t => processTemplate tn t acc) acc).wbc =
      (acc.wbc || ts.any (matchesAny tn)) := by
  induction ts generalizing acc with
  | nil => simp
  | cons t ts ih =>
    rw [List.foldl_cons, ih, processTemplate_wbc, List.any_cons, Bool.or_assoc]

theorem foldTemplates_tracking_only (tn : NameTables) (ts : List Template) (acc : RevAcc) :
    (ts.foldl (fun acc t => processTemplate tn t acc) acc).tracking_only =
      (acc.tracking_only && !(ts.any (matchesTransclusion tn))) := by
  induction ts generalizing acc with
  | nil => simp
  | cons t ts ih =>
    rw [List.foldl_cons, ih, processTemplate_tracking_only, List.any_cons]
    rw [Bool.not_or, Bool.and_assoc]

theorem matchesTransclusion_imp (tn : NameTables) (t : Template)
    (h : matchesTransclusion tn t = true) : matchesAny tn t = true := by
  rcases List.any_eq_true.mp h with ⟨f, hf, hp⟩
  rcases Bool.and_eq_true _ _ |>.mp hp with ⟨hc, _⟩
  exact List.any_eq_true.mpr ⟨f, hf, hc⟩

theorem any_matchesTransclusion_imp (tn : NameTables) (ts : List Template)
    (h : ts.any (matchesTransclusion tn) = true) : ts.any (matchesAny tn) = true := by
  rcases List.any_eq_true.mp h with ⟨t, ht, hp⟩
  exact List.any_eq_true.mpr ⟨t, ht, matchesTransclusion_imp tn t hp⟩

/-- C1 as amended: for an evaluated single-revision page, `prob_wbc` rises by
one iff some invocation matched a tracked family, and `actual_wbc` rises by
one iff some matched invocation was classified as transclusion — a
tracking-only invocation elsewhere on the page does not suppress it. -/
theorem claim1_page_level_counts (tn : NameTables) (st : ScanState) (pg : Page) (r : Revision)
    (hns : pg.ns = 0) (hrd : pg.redirect = false) (hrev : pg.revisions = [r]) :
    (scanPage tn st pg).prob_wbc =
      st.prob_wbc + (if r.text.any (matchesAny tn) then 1 else 0) ∧
    (scanPage tn st pg).actual_wbc =
      st.actual_wbc + (if r.text.any (matchesTransclusion tn) then 1 else 0) := by
  unfold scanPage
  rw [if_pos (by rw [hns, hrd]; rfl), hrev]
  rw [List.foldl_cons, List.foldl_nil]
  unfold scanRevision
  constructor
  · simp only [foldTemplates_wbc, Bool.false_or]
  · simp only [foldTemplates_wbc, foldTemplates_tracking_only, Bool.false_or, Bool.true_and,
      Bool.not_not]
    cases ht : r.text.any (matchesTransclusion tn) with
    | false => simp
    | true => simp [any_matchesTransclusion_imp tn r.text ht]

/-- Witness for C1's amended statement on the mixed page. -/
theorem claim1_witness :
    (scanPage tnDemo initState pageMixed).prob_wbc =
      initState.prob_wbc + (if [tCoord, tACqid].any (matchesAny tnDemo) then 1 else 0) ∧
    (scanPage tnDemo initState pageMixed).actual_wbc =
      initState.actual_wbc +
        (if [tCoord, tACqid].any (matchesTransclusion tnDemo) then 1 else 0) :=
  claim1_page_level_counts tnDemo initState pageMixed ⟨[tCoord, tACqid]⟩ rfl rfl rfl

/-- C1 counterexample: on a page with a tracking-classified `{{Coord}}` and a
transclusion-classified `{{Authority control|QID=Q1}}`, `actual_wbc` is
incremented — the tracking-only invocation does not suppress it. -/
theorem claim1_counterexample :
    (scanPage tnDemo initState pageMixed).actual_wbc = 1 ∧
    (tnDemo Family.cd).contains (standardize_template_names tCoord.name) = true ∧
    familyFunc Family.cd tCoord = true ∧
    (tnDemo Family.ac).contains (standardize_template_names tACqid.name) = true ∧
    familyFunc Family.ac tACqid = false := by
  decide
theorem processTemplate_usage (tn : NameTables) (t : Template) (acc : RevAcc) (f : Family) :
    (processTemplate tn t acc).usage f =
      if (tn f).contains (standardize_template_names t.name) then
        (if familyFunc f t then ⟨(acc.usage f).tracking + 1, (acc.usage f).transclusion⟩
         else ⟨(acc.usage f).tracking, (acc.usage f).transclusion + 1⟩)
      else acc.usage f := by
  have hnd : familyOrder.Nodup := by decide
  have hmem : familyOrder.contains f = true := by
    cases f <;> decide
  rw [processTemplate, foldFam_usage tn t familyOrder hnd f acc, hmem, Bool.true_and]

/-- C6: a matched invocation bumps exactly one of the family's two counters
by one (and an unmatched family's entry is untouched), and the usage
counters never decrease: across one page and across any completed prefix of
the scan they are monotonically non-decreasing. -/
theorem claim6_counter_increments :
    (∀ (tn : NameTables) (t : Template) (acc : RevAcc) (f : Family),
      ((tn f).contains (standardize_template_names t.name) = true →
        (familyFunc f t = true ∧
          (processTemplate tn t acc).usage f =
            ⟨(acc.usage f).tracking + 1, (acc.usage f).transclusion⟩) ∨
        (familyFunc f t = false ∧
          (processTemplate tn t acc).usage f =
            ⟨(acc.usage f).tracking, (acc.usage f).transclusion + 1⟩)) ∧
      ((tn f).contains (standardize_template_names t.name) = false →
        (processTemplate tn t acc).usage f = acc.usage f)) ∧
    (∀ (tn : NameTables) (st : ScanState) (pg : Page),
      usageLe st.wikidata_usage (scanPage tn st pg).wikidata_usage) ∧
    (∀ (tn : NameTables) (i : Nat) (st st' : ScanState) (pages : List Page),
      loopAux tn i st pages = some st' → usageLe st.wikidata_usage st'.wikidata_usage) := by
  refine ⟨fun tn t acc f => ⟨fun hc => ?_, fun hc => ?_⟩, scanPage_le,
    fun tn i st st' pages h => loopAux_le tn pages i st st' h⟩
  · rw [processTemplate_usage, if_pos hc]
    cases hf : familyFunc f t with
    | true => exact Or.inl ⟨rfl, by rw [if_pos rfl]⟩
    | false => exact Or.inr ⟨rfl, by rw [if_neg (by simp)]⟩
  · rw [processTemplate_usage, if_neg]
    rw [hc]
    exact Bool.false_ne_true
/-- Witness for C6: concrete instantiations at `{{Authority control|QID=Q1}}`
(matched, transclusion branch), at an unmatched family, and the monotonicity
over the one-page scan of page A. -/
theorem claim6_witness :
    ((familyFunc Family.ac tACqid = true ∧
      (processTemplate tnDemo tACqid ⟨initState.wikidata_usage, false, true⟩).usage Family.ac =
        ⟨(initState.wikidata_usage Family.ac).tracking + 1,
         (initState.wikidata_usage Family.ac).transclusion⟩) ∨
     (familyFunc Family.ac tACqid = false ∧
      (processTemplate tnDemo tACqid ⟨initState.wikidata_usage, false, true⟩).usage Family.ac =
        ⟨(initState.wikidata_usage Family.ac).tracking,
         (initState.wikidata_usage Family.ac).transclusion + 1⟩)) ∧
    (processTemplate tnDemo tACqid ⟨initState.wikidata_usage, false, true⟩).usage Family.tb =
      initState.wikidata_usage Family.tb ∧
    usageLe initState.wikidata_usage (scanPage tnDemo initState pageA).wikidata_usage :=
  ⟨(claim6_counter_increments.1 tnDemo tACqid ⟨initState.wikidata_usage, false, true⟩
      Family.ac).1 (by decide),
   (claim6_counter_increments.1 tnDemo tACqid ⟨initState.wikidata_usage, false, true⟩
      Family.tb).2 (by decide),
   claim6_counter_increments.2.2 tnDemo 1 initState (scanPage tnDemo initState pageA)
      [pageA] rfl⟩

theorem scanPage_skip (tn : NameTables) (st : ScanState) (pg : Page)
    (h : ¬(pg.ns = 0 ∧ pg.redirect = false)) : scanPage tn st pg = st := by
  unfold scanPage
  rw [if_neg]
  intro hb
  rcases Bool.and_eq_true _ _ |>.mp hb with ⟨h1, h2⟩
  exact h ⟨by exact_mod_cast decide_eq_true_eq.mp h1, by simpa using h2⟩

theorem loopAux_none_of_skipped (tn : NameTables) (pages : List Page)
    (h : ∀ pg ∈ pages, ¬(pg.ns = 0 ∧ pg.redirect = false)) :
    ∀ (i : Nat) (st : ScanState), st.evaluated = 0 → loopAux tn i st pages = none := by
  induction pages with
  | nil =>
    intro i st he
    unfold loopAux
    rw [he]
    simp [summary_stats, pyTrueDiv]
  | cons pg pages ih =>
    intro i st he
    have hskip : scanPage tn st pg = st := scanPage_skip tn st pg (h pg (List.mem_cons_self _ _))
    have h' : ∀ q ∈ pages, ¬(q.ns = 0 ∧ q.redirect = false) :=
      fun q hq => h q (List.mem_cons_of_mem _ hq)
    unfold loopAux
    rw [hskip]
    dsimp only []
    by_cases hi : i % 10000 = 0
    · rw [if_pos hi, he]
      simp [summary_stats, pyTrueDiv]
    · rw [if_neg hi]
      exact ih h' (i + 1) st he

/-- C9: the progress/summary statistics divide by `evaluated` with no guard:
they are an error whenever `evaluated = 0`, and a dump in which no page is a
namespace-0 non-redirect (so `evaluated` stays 0) makes the whole run abort
with a `ZeroDivisionError` instead of printing the summary. -/
theorem claim9_division_by_zero :
    (∀ prob_wbc actual_wbc : Nat, summary_stats 0 prob_wbc actual_wbc = none) ∧
    (∀ (tn : NameTables) (pages : List Page),
      (∀ pg ∈ pages, ¬(pg.ns = 0 ∧ pg.redirect = false)) → mainLoop tn pages = none) :=
  ⟨fun p a => by simp [summary_stats, pyTrueDiv],
   fun tn pages h => loopAux_none_of_skipped tn pages h 1 initState rfl⟩

/-- Witness for C9 on a one-redirect-page dump. -/
theorem claim9_witness :
    summary_stats 0 5 3 = none ∧ mainLoop tnDemo [pageRedirect] = none :=
  ⟨claim9_division_by_zero.1 5 3,
   claim9_division_by_zero.2 tnDemo [pageRedirect] (by decide)⟩

/-- C5: the three-page synthetic dump yields cd.tracking = 1, ac.tracking = 1,
ac.transclusion = 1, evaluated = 3, prob_wbc = 3, actual_wbc = 1, and every
other counter 0. -/
theorem claim5_end_to_end :
    (mainLoop tnDemo [pageA, pageB, pageC]).map observe =
      some (3, 3, 1, (1, 0), (1, 1), (0, 0), (0, 0), (0, 0)) := by
  rfl

theorem digit_isDigit {d : Nat} (h : d < 10) : (Char.ofNat (48 + d)).isDigit = true := by
  interval_cases d <;> decide

theorem natReprAux_digit : ∀ (n : Nat) (acc : List Char),
    (∀ c ∈ acc, c.isDigit = true) → ∀ c ∈ natReprAux n acc, c.isDigit = true := by
  intro n
  induction n using Nat.strong_induction_on with
  | _ n ih =>
    intro acc hacc c hc
    unfold natReprAux at hc
    split at hc
    · rcases List.mem_cons.mp hc with rfl | hm
      · exact digit_isDigit (by omega)
      · exact hacc _ hm
    · refine ih (n / 10) (Nat.div_lt_self (by omega) (by omega)) _ ?_ c hc
      intro c' hc'
      rcases List.mem_cons.mp hc' with rfl | hm
      · exact digit_isDigit (Nat.mod_lt _ (by omega))
      · exact hacc _ hm

theorem natRepr_digit (n : Nat) : ∀ c ∈ natRepr n, c.isDigit = true :=
  natReprAux_digit n [] (by simp)

theorem not_nl_natRepr (n : Nat) : '\n' ∉ natRepr n :=
  fun h => absurd (natRepr_digit n _ h) (by decide)

theorem not_tab_natRepr (n : Nat) : '\t' ∉ natRepr n :=
  fun h => absurd (natRepr_digit n _ h) (by decide)

theorem not_nl_intRepr (i : Int) : '\n' ∉ intRepr i := by
  unfold intRepr
  split
  · intro h
    rcases List.mem_cons.mp h with h | h
    · cases h
    · exact not_nl_natRepr _ h
  · exact not_nl_natRepr _

theorem not_tab_intRepr (i : Int) : '\t' ∉ intRepr i := by
  unfold intRepr
  split
  · intro h
    rcases List.mem_cons.mp h with h | h
    · cases h
    · exact not_tab_natRepr _ h
  · exact not_tab_natRepr _

theorem splitOnChar_cons (sep c : Char) (rest : List Char) :
    splitOnChar sep (c :: rest) =
      match splitOnChar sep rest with
      | [] => [[c]]
      | s :: ss => if c = sep then [] :: s :: ss else (c :: s) :: ss := rfl

theorem splitOnChar_ne_nil (sep : Char) (s : List Char) : splitOnChar sep s ≠ [] := by
  cases s with
  | nil => simp [splitOnChar]
  | cons c rest =>
    rw [splitOnChar_cons]
    cases h : splitOnChar sep rest with
    | nil => simp
    | cons a as => by_cases hc : c = sep <;> simp [hc]

theorem splitOnChar_no_sep {sep : Char} {s : List Char} (h : sep ∉ s) :
    splitOnChar sep s = [s] := by
  induction s with
  | nil => rfl
  | cons c rest ih =>
    have hc : c ≠ sep := fun e => h (e ▸ List.mem_cons_self _ _)
    have hr : sep ∉ rest := fun m => h (List.mem_cons_of_mem _ m)
    rw [splitOnChar_cons, ih hr]
    simp [hc]

theorem splitOnChar_sep_append {sep : Char} (a b : List Char) (h : sep ∉ a) :
    splitOnChar sep (a ++ sep :: b) = a :: splitOnChar sep b := by
  induction a with
  | nil =>
    simp only [List.nil_append]
    rw [splitOnChar_cons]
    cases hs : splitOnChar sep b with
    | nil => exact absurd hs (splitOnChar_ne_nil sep b)
    | cons x xs => simp
  | cons c a ih =>
    have hc : c ≠ sep := fun e => h (e ▸ List.mem_cons_self _ _)
    have ha : sep ∉ a := fun m => h (List.mem_cons_of_mem _ m)
    simp only [List.cons_append]
    rw [splitOnChar_cons, ih ha]
    simp [hc]

theorem splitTab_three (a b c : List Char) (ha : '\t' ∉ a) (hb : '\t' ∉ b)
    (hc : '\t' ∉ c) :
    splitOnChar '\t' (a ++ '\t' :: (b ++ '\t' :: c)) = [a, b, c] := by
  rw [splitOnChar_sep_append a _ ha, splitOnChar_sep_append b _ hb, splitOnChar_no_sep hc]
theorem not_mem_append2 {α : Type} {x : α} {a b : List α} (ha : x ∉ a) (hb : x ∉ b) :
    x ∉ a ++ b :=
  fun h => (List.mem_append.mp h).elim ha hb

theorem not_mem_cons2 {α : Type} {x c : α} {a : List α} (hx : x ≠ c) (ha : x ∉ a) :
    x ∉ c :: a :=
  fun h => (List.mem_cons.mp h).elim hx ha

theorem splitTab_total (a : List Char) (h : '\t' ∉ a) :
    splitOnChar '\t' (a ++ ['\t', '\t']) = [a, [], []] := by
  have he : a ++ ['\t', '\t'] = a ++ '\t' :: ([] ++ '\t' :: []) := rfl
  rw [he, splitOnChar_sep_append _ _ h, splitOnChar_sep_append [] _ (by decide)]
  rfl

theorem report_shape (u : Family → Counters) (evaluated prob_wbc actual_wbc : Nat) :
    reportFile u evaluated prob_wbc actual_wbc =
      "type\ttransclusion\ttracking".toList ++ '\n' ::
      (("total:".toList ++ natRepr evaluated ++ ['\t', '\t']) ++ '\n' ::
      (("wbc_estimate".toList ++ '\t' :: (natRepr actual_wbc ++ '\t' ::
          intRepr ((prob_wbc : Int) - (actual_wbc : Int)))) ++ '\n' ::
      ((familyTag Family.cd ++ '\t' :: (natRepr (u Family.cd).transclusion ++ '\t' ::
          natRepr (u Family.cd).tracking)) ++ '\n' ::
      ((familyTag Family.ac ++ '\t' :: (natRepr (u Family.ac).transclusion ++ '\t' ::
          natRepr (u Family.ac).tracking)) ++ '\n' ::
      ((familyTag Family.tb ++ '\t' :: (natRepr (u Family.tb).transclusion ++ '\t' ::
          natRepr (u Family.tb).tracking)) ++ '\n' ::
      ((familyTag Family.bd ++ '\t' :: (natRepr (u Family.bd).transclusion ++ '\t' ::
          natRepr (u Family.bd).tracking)) ++ '\n' ::
      ((familyTag Family.el ++ '\t' :: (natRepr (u Family.el).transclusion ++ '\t' ::
          natRepr (u Family.el).tracking)) ++ '\n' :: []))))))) := by
  simp [reportFile, famRow, familyOrder]
/-- C8: the report consists of a tab-separated header `type transclusion
tracking`, a total-evaluated row, a `wbc_estimate` row whose transclusion
column is `actual_wbc` and whose tracking column is `prob_wbc - actual_wbc`,
then exactly one row per family with its transclusion and tracking counts, in
dictionary order. -/
theorem claim8_report_structure (u : Family → Counters) (evaluated prob_wbc actual_wbc : Nat) :
    (splitOnChar '\n' (reportFile u evaluated prob_wbc actual_wbc)).map (splitOnChar '\t') =
      [["type".toList, "transclusion".toList, "tracking".toList],
       ["total:".toList ++ natRepr evaluated, [], []],
       ["wbc_estimate".toList, natRepr actual_wbc,
         intRepr ((prob_wbc : Int) - (actual_wbc : Int))]]
      ++ familyOrder.map (fun w =>
           [familyTag w, natRepr (u w).transclusion, natRepr (u w).tracking])
      ++ [[[]]] := by
  have h1 : '\n' ∉ "type\ttransclusion\ttracking".toList := by decide
  have hT : '\n' ∉ "total:".toList ++ natRepr evaluated ++ ['\t', '\t'] :=
    not_mem_append2 (a := "total:".toList) (by decide)
      (not_mem_append2 (not_nl_natRepr _) (b := ['\t', '\t']) (by decide))
  have hW : '\n' ∉ "wbc_estimate".toList ++ '\t' :: (natRepr actual_wbc ++ '\t' ::
      intRepr ((prob_wbc : Int) - (actual_wbc : Int))) :=
    not_mem_append2 (a := "wbc_estimate".toList) (by decide)
      (not_mem_cons2 (c := '\t') (by decide)
        (not_mem_append2 (not_nl_natRepr _)
          (not_mem_cons2 (c := '\t') (by decide) (not_nl_intRepr _))))
  have hrow : ∀ w : Family, '\n' ∉ familyTag w ++ '\t' :: (natRepr (u w).transclusion ++ '\t' ::
      natRepr (u w).tracking) := by
    intro w
    refine not_mem_append2 ?_ (not_mem_cons2 (c := '\t') (by decide)
      (not_mem_append2 (not_nl_natRepr _)
        (not_mem_cons2 (c := '\t') (by decide) (not_nl_natRepr _))))
    cases w <;> decide
  rw [report_shape]
  rw [splitOnChar_sep_append _ _ h1, splitOnChar_sep_append _ _ hT,
    splitOnChar_sep_append _ _ hW, splitOnChar_sep_append _ _ (hrow Family.cd),
    splitOnChar_sep_append _ _ (hrow Family.ac), splitOnChar_sep_append _ _ (hrow Family.tb),
    splitOnChar_sep_append _ _ (hrow Family.bd), splitOnChar_sep_append _ _ (hrow Family.el)]
  have htT : '\t' ∉ "total:".toList ++ natRepr evaluated :=
    not_mem_append2 (a := "total:".toList) (by decide) (not_tab_natRepr _)
  have hrowT : ∀ w : Family,
      splitOnChar '\t' (familyTag w ++ '\t' :: (natRepr (u w).transclusion ++ '\t' ::
        natRepr (u w).tracking)) =
      [familyTag w, natRepr (u w).transclusion, natRepr (u w).tracking] := by
    intro w
    refine splitTab_three _ _ _ ?_ (not_tab_natRepr _) (not_tab_natRepr _)
    cases w <;> decide
  simp only [List.map_cons]
  rw [show ("total:".toList ++ natRepr evaluated ++ ['\t', '\t'] : List Char) =
      ("total:".toList ++ natRepr evaluated) ++ ['\t', '\t'] from by simp]
  rw [splitTab_total _ htT]
  rw [splitTab_three "wbc_estimate".toList (natRepr actual_wbc)
    (intRepr ((prob_wbc : Int) - (actual_wbc : Int))) (by decide) (not_tab_natRepr _)
    (not_tab_intRepr _)]
  rw [hrowT Family.cd, hrowT Family.ac, hrowT Family.tb, hrowT Family.bd, hrowT Family.el]
  simp [familyOrder]
  decide

end CheckTracking
